import Mathlib

/-!
Shallow embedding of the cluedo-backend game engine (src/src/main.rs).

The Rust program keeps a single mutable GameState behind a mutex; every route
handler locks it, inspects or mutates it, and returns an HTTP status (plus a
body on some routes).  We embed each handler as a pure function from the
GameState to a result paired with the successor state.  Randomness in
create_game (solution choice and deck shuffle) is passed in explicitly: the
chosen Suggestion and the shuffle function applied to the residual deck.
-/

/-- The six suspects, in the declaration order of the Rust enum. -/
inductive Suspect
  | Plum | Green | Mustard | Peacock | Scarlett | Orchid
deriving DecidableEq, Fintype, Repr

/-- The six weapons, in the declaration order of the Rust enum. -/
inductive Weapon
  | Candlestick | LeadPipe | Dagger | Rope | Revolver | Wrench
deriving DecidableEq, Fintype, Repr

/-- The nine rooms, in the declaration order of the Rust enum. -/
inductive Room
  | Kitchen | Hall | Lounge | Ballroom | Conservatory | DiningRoom
  | Library | BilliardRoom | Study
deriving DecidableEq, Fintype, Repr

/-- A card is a tagged union over the three kinds; equality is structural,
matching the derived PartialEq on the Rust enum Card. -/
inductive Card
  | Suspect (s : Suspect)
  | Weapon (w : Weapon)
  | Room (r : Room)
deriving DecidableEq, Repr

/-- A suggestion (also used as the hidden solution): one suspect, one weapon,
one room. -/
structure Suggestion where
  suspect : Suspect
  weapon : Weapon
  room : Room
deriving DecidableEq, Fintype, Repr

/-- A player: a name and a hand of cards. -/
structure Player where
  name : String
  cards : List Card
deriving DecidableEq, Repr

/-- Player::new — a fresh player with an empty hand. -/
def Player.new (name : String) : Player :=
  { name := name, cards := [] }

/-- The authoritative game state: roster (insertion order) and optional
solution. -/
structure GameState where
  players : List Player
  solution : Option Suggestion
deriving DecidableEq, Repr

/-- GameState::new — the initial empty state. -/
def GameState.new : GameState :=
  { players := [], solution := none }

/-- The HTTP statuses the handlers return. -/
inductive Status
  | Created | Conflict | NoContent | NotFound | BadRequest
deriving DecidableEq, Repr

/-- Suspect::iter() — the catalog order of suspects. -/
def Suspect.iter : List Suspect :=
  [.Plum, .Green, .Mustard, .Peacock, .Scarlett, .Orchid]

/-- Weapon::iter() — the catalog order of weapons. -/
def Weapon.iter : List Weapon :=
  [.Candlestick, .LeadPipe, .Dagger, .Rope, .Revolver, .Wrench]

/-- Room::iter() — the catalog order of rooms. -/
def Room.iter : List Room :=
  [.Kitchen, .Hall, .Lounge, .Ballroom, .Conservatory, .DiningRoom,
   .Library, .BilliardRoom, .Study]

/-- The full 21-card deck, built exactly as create_game builds all_cards:
suspects, then weapons, then rooms. -/
def allCards : List Card :=
  Suspect.iter.map Card.Suspect ++ Weapon.iter.map Card.Weapon ++
    Room.iter.map Card.Room

/-- The solution_vector of create_game (also the three cards named by a
suggestion): the suspect card, the weapon card, the room card. -/
def Suggestion.cards (s : Suggestion) : List Card :=
  [Card.Suspect s.suspect, Card.Weapon s.weapon, Card.Room s.room]

/-- all_cards after retain: the 21-card catalog with the solution cards
removed by structural equality. -/
def residualCards (sol : Suggestion) : List Card :=
  allCards.filter (fun x => !(sol.cards.contains x))

/-- POST /players/name — create_player: Conflict if a player with the same
(case-sensitive) name exists, otherwise push a fresh player. -/
def create_player (name : String) (state : GameState) : Status × GameState :=
  match state.players.find? (fun p => p.name == name) with
  | some _ => (Status.Conflict, state)
  | none =>
      (Status.Created,
        { state with players := state.players ++ [Player.new name] })

/-- DELETE /players/name — delete_player: remove the player at the found
position, NotFound otherwise. -/
def delete_player (name : String) (state : GameState) : Status × GameState :=
  match state.players.findIdx? (fun p => p.name == name) with
  | some index =>
      (Status.NoContent, { state with players := state.players.eraseIdx index })
  | none => (Status.NotFound, state)

/-- GET /players — get_players: the roster, read-only. -/
def get_players (state : GameState) : List Player :=
  state.players

/-- GET /players/name — get_player: the named player, or NotFound. -/
def get_player (name : String) (state : GameState) : Except Status Player :=
  match state.players.find? (fun p => p.name == name) with
  | some p => Except.ok p
  | none => Except.error Status.NotFound

/-- Append one card to a player's hand (players[i].cards.push). -/
def pushCard (p : Player) (c : Card) : Player :=
  { p with cards := p.cards ++ [c] }

/-- One pass of the inner dealing loop: give each player, in roster order,
the next card of the deck; the bound check skips players once the deck is
exhausted. -/
def dealOnce : List Player → List Card → List Player × List Card
  | [], deck => ([], deck)
  | p :: ps, [] => (p :: ps, [])
  | p :: ps, c :: deck =>
      let r := dealOnce ps deck
      (pushCard p c :: r.1, r.2)

/-- The outer dealing loop: base_cards_per_player full rounds. -/
def dealRounds : Nat → List Player → List Card → List Player × List Card
  | 0, ps, deck => (ps, deck)
  | r + 1, ps, deck =>
      let s := dealOnce ps deck
      dealRounds r s.1 s.2

/-- The extra-cards loop: one further card to each of the first k players,
with the same deck-exhaustion bound check. -/
def dealExtra : Nat → List Player → List Card → List Player × List Card
  | 0, ps, deck => (ps, deck)
  | _ + 1, [], deck => ([], deck)
  | k + 1, p :: ps, [] =>
      let r := dealExtra k ps []
      (p :: r.1, r.2)
  | k + 1, p :: ps, c :: deck =>
      let r := dealExtra k ps deck
      (pushCard p c :: r.1, r.2)

/-- The whole dealing phase of create_game: base = total / players,
extra = total mod players, base full rounds then extras to the first
players in roster order. -/
def dealCards (players : List Player) (deck : List Card) : List Player :=
  let base := deck.length / players.length
  let extra := deck.length % players.length
  let s := dealRounds base players deck
  (dealExtra extra s.1 s.2).1

/-- POST /game — create_game.  The Rust handler first matches on
state.solution and RETURNS BadRequest when it is None (continuing when it is
Some), then rejects rosters of fewer than 2 players, then chooses a random
solution, stores it, removes its three cards from the catalog, shuffles, and
deals.  The random choice is the explicit argument sol; the random shuffle is
the explicit argument shuffle. -/
def create_game (sol : Suggestion) (shuffle : List Card → List Card)
    (state : GameState) : Except Status GameState :=
  match state.solution with
  | none => Except.error Status.BadRequest
  | some _ =>
      if state.players.length < 2 then Except.error Status.BadRequest
      else
        let all_cards := shuffle (residualCards sol)
        Except.ok
          { players := dealCards state.players all_cards,
            solution := some sol }

/-- DELETE /game — delete_game: BadRequest when no solution is stored,
otherwise clear roster and solution. -/
def delete_game (state : GameState) : Status × GameState :=
  match state.solution with
  | none => (Status.BadRequest, state)
  | some _ => (Status.NoContent, { players := [], solution := none })

/-- The search the suggest handler runs over every player's hand (its result
is discarded by the Rust code). -/
def suggestScan (sug : Suggestion) (state : GameState) : List (Option Card) :=
  state.players.map (fun player =>
    player.cards.find? (fun c =>
      c == Card.Suspect sug.suspect || c == Card.Weapon sug.weapon ||
        c == Card.Room sug.room))

/-- POST /suggest — the suggest handler scans the hands (suggestScan), drops
the results, and then hits an unconditional todo!(): it never produces a
status and never mutates the state.  We model the absent return value as
none. -/
def suggest (sug : Suggestion) (state : GameState) : Option Status × GameState :=
  (none, state)

/-- Modelled from the spec: whether a player's hand holds a card structurally
equal to the suggestion's suspect card, weapon card, or room card.  The
source's suggest handler computes exactly this test per player but discards
it and ends in todo!(); section 4.3 of the spec is the contract of record
for refutation. -/
def handMatches (sug : Suggestion) (p : Player) : Bool :=
  p.cards.any (fun c =>
    c == Card.Suspect sug.suspect || c == Card.Weapon sug.weapon ||
      c == Card.Room sug.room)

/-- Modelled from the spec: the refutation turn order for the suggester at
roster index s — roster order starting immediately after the suggester,
wrapping around, the suggester excluded. -/
def turnOrder (players : List Player) (s : Nat) : List Player :=
  players.drop (s + 1) ++ players.take s

/-- Modelled from the spec: Refute — the first candidate in turn order whose
hand holds a matching card, or none (unrefuted).  The suggest handler's
refutation logic is missing from the source (it ends in todo!()); this
follows the spec, section 4.3. -/
def refute (sug : Suggestion) (s : Nat) (players : List Player) :
    Option Player :=
  (turnOrder players s).find? (handMatches sug)

/-- Modelled from the spec: Accuse — compare the accused triple field by
field against the stored solution.  No accusation check exists in the source
(the suggest handler ends in todo!()); this follows the spec, section 4.3. -/
def accuse (sol sug : Suggestion) : Bool :=
  sug.suspect == sol.suspect && sug.weapon == sol.weapon &&
    sug.room == sol.room

/-- One request to any of the seven mounted routes, with the randomness of
create_game made explicit. -/
inductive Op
  | createPlayer (name : String)
  | deletePlayer (name : String)
  | getPlayers
  | getPlayer (name : String)
  | createGame (sol : Suggestion) (shuffle : List Card → List Card)
  | deleteGame
  | suggestOp (sug : Suggestion)

/-- The state transition a request performs (read-only routes and failing
create_game leave the state as the handler left it). -/
def applyOp (op : Op) (state : GameState) : GameState :=
  match op with
  | .createPlayer name => (create_player name state).2
  | .deletePlayer name => (delete_player name state).2
  | .getPlayers => state
  | .getPlayer _ => state
  | .createGame sol shuffle =>
      match create_game sol shuffle state with
      | .ok state1 => state1
      | .error _ => state
  | .deleteGame => (delete_game state).2
  | .suggestOp sug => (suggest sug state).2

/-- Run a sequence of requests from a starting state. -/
def runOps (ops : List Op) (state : GameState) : GameState :=
  ops.foldl (fun s op => applyOp op s) state

/-! Catalog facts. -/

set_option maxRecDepth 10000 in
/-- Filtering the catalog for the three cards of a suggestion yields exactly
those three cards, in catalog order. -/
theorem filter_contains_eq (sol : Suggestion) :
    allCards.filter (fun x => sol.cards.contains x) = sol.cards := by
  revert sol
  decide

/-- The residual deck together with the solution cards is a permutation of
the full catalog. -/
theorem residual_append_perm (sol : Suggestion) :
    (residualCards sol ++ sol.cards).Perm allCards := by
  have h := List.filter_append_perm (fun x => sol.cards.contains x) allCards
  rw [filter_contains_eq] at h
  exact (List.perm_append_comm).trans h

/-- The residual deck has exactly 18 cards. -/
theorem residual_length (sol : Suggestion) :
    (residualCards sol).length = 18 := by
  have h := (residual_append_perm sol).length_eq
  simp [allCards, Suggestion.cards, Suspect.iter, Weapon.iter, Room.iter] at h
  omega

/-- A residual card is never a solution card. -/
theorem not_mem_of_mem_residual (sol : Suggestion) {c : Card}
    (h : c ∈ residualCards sol) : c ∉ sol.cards := by
  have h2 := List.of_mem_filter h
  simp only [Bool.not_eq_true'] at h2
  simp at h2
  exact h2

/-! Dealing-loop lemmas. -/

theorem dealOnce_length (ps : List Player) (deck : List Card) :
    (dealOnce ps deck).1.length = ps.length := by
  induction ps generalizing deck with
  | nil => simp [dealOnce]
  | cons p ps ih =>
      cases deck with
      | nil => simp [dealOnce]
      | cons c deck => simp [dealOnce, ih]

theorem dealOnce_names (ps : List Player) (deck : List Card) :
    (dealOnce ps deck).1.map Player.name = ps.map Player.name := by
  induction ps generalizing deck with
  | nil => simp [dealOnce]
  | cons p ps ih =>
      cases deck with
      | nil => simp [dealOnce]
      | cons c deck => simp [dealOnce, ih, pushCard]

theorem dealOnce_snd (ps : List Player) (deck : List Card) :
    (dealOnce ps deck).2 = deck.drop ps.length := by
  induction ps generalizing deck with
  | nil => simp [dealOnce]
  | cons p ps ih =>
      cases deck with
      | nil => simp [dealOnce]
      | cons c deck => simp [dealOnce, ih]

theorem dealOnce_lengths (ps : List Player) (deck : List Card)
    (h : ps.length ≤ deck.length) :
    (dealOnce ps deck).1.map (fun p => p.cards.length)
      = ps.map (fun p => p.cards.length + 1) := by
  induction ps generalizing deck with
  | nil => simp [dealOnce]
  | cons p ps ih =>
      cases deck with
      | nil => simp at h
      | cons c deck =>
          simp only [List.length_cons, Nat.succ_le_succ_iff] at h
          simp [dealOnce, ih deck h, pushCard]

theorem dealOnce_join (ps : List Player) (deck : List Card) :
    (((dealOnce ps deck).1.map Player.cards).flatten).Perm
      ((ps.map Player.cards).flatten ++ deck.take ps.length) := by
  induction ps generalizing deck with
  | nil => simp [dealOnce]
  | cons p ps ih =>
      cases deck with
      | nil => simp [dealOnce]
      | cons c deck =>
          simp only [dealOnce, List.map_cons, List.flatten_cons, pushCard,
            List.take_succ_cons, List.length_cons]
          rw [List.append_assoc, List.append_assoc]
          refine List.Perm.append_left p.cards ?_
          refine (List.Perm.append_left [c] (ih deck)).trans ?_
          rw [List.singleton_append]
          exact List.perm_middle.symm

theorem dealRounds_length (r : Nat) (ps : List Player) (deck : List Card) :
    (dealRounds r ps deck).1.length = ps.length := by
  induction r generalizing ps deck with
  | zero => simp [dealRounds]
  | succ r ih =>
      simp [dealRounds, ih, dealOnce_length]

theorem dealRounds_names (r : Nat) (ps : List Player) (deck : List Card) :
    (dealRounds r ps deck).1.map Player.name = ps.map Player.name := by
  induction r generalizing ps deck with
  | zero => simp [dealRounds]
  | succ r ih =>
      simp [dealRounds, ih, dealOnce_names]

theorem dealRounds_snd (r : Nat) (ps : List Player) (deck : List Card) :
    (dealRounds r ps deck).2 = deck.drop (r * ps.length) := by
  induction r generalizing ps deck with
  | zero => simp [dealRounds]
  | succ r ih =>
      rw [dealRounds, ih, dealOnce_snd, dealOnce_length, List.drop_drop]
      congr 1
      ring

theorem dealRounds_lengths (r : Nat) (ps : List Player) (deck : List Card)
    (h : r * ps.length ≤ deck.length) :
    (dealRounds r ps deck).1.map (fun p => p.cards.length)
      = ps.map (fun p => p.cards.length + r) := by
  induction r generalizing ps deck with
  | zero => simp [dealRounds]
  | succ r ih =>
      have hs : (r + 1) * ps.length = r * ps.length + ps.length := by ring
      have hn : ps.length ≤ deck.length := by omega
      have hrec : r * (dealOnce ps deck).1.length ≤ (dealOnce ps deck).2.length := by
        rw [dealOnce_length, dealOnce_snd, List.length_drop]
        omega
      rw [dealRounds, ih _ _ hrec]
      have hcomp : List.map (fun p => p.cards.length + r) (dealOnce ps deck).1
          = ((dealOnce ps deck).1.map (fun p => p.cards.length)).map (fun n => n + r) := by
        rw [List.map_map]
        rfl
      rw [hcomp, dealOnce_lengths ps deck hn, List.map_map]
      apply List.map_congr_left
      intro p _
      simp only [Function.comp_apply]
      omega

theorem dealRounds_join (r : Nat) (ps : List Player) (deck : List Card) :
    (((dealRounds r ps deck).1.map Player.cards).flatten).Perm
      ((ps.map Player.cards).flatten ++ deck.take (r * ps.length)) := by
  induction r generalizing ps deck with
  | zero => simp [dealRounds]
  | succ r ih =>
      rw [dealRounds]
      refine (ih _ _).trans ?_
      rw [dealOnce_length, dealOnce_snd]
      have htake : deck.take ((r + 1) * ps.length)
          = deck.take ps.length ++ (deck.drop ps.length).take (r * ps.length) := by
        rw [← List.take_add]
        congr 1
        ring
      rw [htake, ← List.append_assoc]
      exact List.Perm.append_right _ (dealOnce_join ps deck)

theorem dealExtra_length (k : Nat) (ps : List Player) (deck : List Card) :
    (dealExtra k ps deck).1.length = ps.length := by
  induction k generalizing ps deck with
  | zero => simp [dealExtra]
  | succ k ih =>
      cases ps with
      | nil => simp [dealExtra]
      | cons p ps =>
          cases deck with
          | nil => simp [dealExtra, ih]
          | cons c deck => simp [dealExtra, ih]

theorem dealExtra_names (k : Nat) (ps : List Player) (deck : List Card) :
    (dealExtra k ps deck).1.map Player.name = ps.map Player.name := by
  induction k generalizing ps deck with
  | zero => simp [dealExtra]
  | succ k ih =>
      cases ps with
      | nil => simp [dealExtra]
      | cons p ps =>
          cases deck with
          | nil => simp [dealExtra, ih]
          | cons c deck => simp [dealExtra, ih, pushCard]

theorem dealExtra_lengths (k : Nat) (ps : List Player) (deck : List Card)
    (hk : k ≤ ps.length) (hd : k ≤ deck.length) :
    (dealExtra k ps deck).1.map (fun p => p.cards.length)
      = (ps.take k).map (fun p => p.cards.length + 1)
          ++ (ps.drop k).map (fun p => p.cards.length) := by
  induction k generalizing ps deck with
  | zero => simp [dealExtra]
  | succ k ih =>
      cases ps with
      | nil => simp at hk
      | cons p ps =>
          cases deck with
          | nil => simp at hd
          | cons c deck =>
              simp only [List.length_cons, Nat.succ_le_succ_iff] at hk hd
              simp [dealExtra, ih ps deck hk hd, pushCard]

theorem dealExtra_join (k : Nat) (ps : List Player) (deck : List Card)
    (hk : k ≤ ps.length) :
    (((dealExtra k ps deck).1.map Player.cards).flatten).Perm
      ((ps.map Player.cards).flatten ++ deck.take k) := by
  induction k generalizing ps deck with
  | zero => simp [dealExtra]
  | succ k ih =>
      cases ps with
      | nil => simp at hk
      | cons p ps =>
          simp only [List.length_cons, Nat.succ_le_succ_iff] at hk
          cases deck with
          | nil =>
              simp only [dealExtra, List.map_cons, List.flatten_cons,
                List.take_nil, List.append_nil]
              exact ((ih ps [] hk).trans (by simp)).append_left p.cards
          | cons c deck =>
              simp only [dealExtra, List.map_cons, List.flatten_cons, pushCard,
                List.take_succ_cons]
              rw [List.append_assoc, List.append_assoc]
              refine List.Perm.append_left p.cards ?_
              refine (List.Perm.append_left [c] (ih ps deck hk)).trans ?_
              rw [List.singleton_append]
              exact List.perm_middle.symm

theorem dealCards_length (ps : List Player) (deck : List Card) :
    (dealCards ps deck).length = ps.length := by
  rw [dealCards, dealExtra_length, dealRounds_length]

theorem dealCards_names (ps : List Player) (deck : List Card) :
    (dealCards ps deck).map Player.name = ps.map Player.name := by
  rw [dealCards, dealExtra_names, dealRounds_names]

theorem dealCards_lengths (ps : List Player) (deck : List Card)
    (hn : 0 < ps.length) :
    (dealCards ps deck).map (fun p => p.cards.length)
      = (ps.take (deck.length % ps.length)).map
          (fun p => p.cards.length + deck.length / ps.length + 1)
        ++ (ps.drop (deck.length % ps.length)).map
          (fun p => p.cards.length + deck.length / ps.length) := by
  have hdm : deck.length / ps.length * ps.length + deck.length % ps.length
      = deck.length := by
    rw [Nat.mul_comm]
    exact Nat.div_add_mod deck.length ps.length
  have hbase : deck.length / ps.length * ps.length ≤ deck.length := by omega
  have hextra : deck.length % ps.length < ps.length :=
    Nat.mod_lt _ hn
  have hrounds := dealRounds_lengths (deck.length / ps.length) ps deck hbase
  have hsndlen :
      (dealRounds (deck.length / ps.length) ps deck).2.length
        = deck.length % ps.length := by
    rw [dealRounds_snd, List.length_drop]
    omega
  have hk : deck.length % ps.length
      ≤ (dealRounds (deck.length / ps.length) ps deck).1.length := by
    rw [dealRounds_length]
    omega
  have hd : deck.length % ps.length
      ≤ (dealRounds (deck.length / ps.length) ps deck).2.length := by
    omega
  rw [dealCards, dealExtra_lengths _ _ _ hk hd]
  congr 1
  · have h1 :
        ((dealRounds (deck.length / ps.length) ps deck).1.take
            (deck.length % ps.length)).map (fun p => p.cards.length + 1)
          = (((dealRounds (deck.length / ps.length) ps deck).1.map
              (fun p => p.cards.length)).take (deck.length % ps.length)).map
              (fun n => n + 1) := by
      rw [← List.map_take, List.map_map]
      rfl
    rw [h1, hrounds, ← List.map_take, List.map_map]
    apply List.map_congr_left
    intro p _
    simp only [Function.comp_apply]
  · have h2 :
        ((dealRounds (deck.length / ps.length) ps deck).1.drop
            (deck.length % ps.length)).map (fun p => p.cards.length)
          = ((dealRounds (deck.length / ps.length) ps deck).1.map
              (fun p => p.cards.length)).drop (deck.length % ps.length) := by
      rw [List.map_drop]
    rw [h2, hrounds, ← List.map_drop]

theorem dealCards_join (ps : List Player) (deck : List Card)
    (hn : 0 < ps.length) :
    (((dealCards ps deck).map Player.cards).flatten).Perm
      ((ps.map Player.cards).flatten ++ deck) := by
  have hdm : deck.length / ps.length * ps.length + deck.length % ps.length
      = deck.length := by
    rw [Nat.mul_comm]
    exact Nat.div_add_mod deck.length ps.length
  have hsndlen :
      (dealRounds (deck.length / ps.length) ps deck).2.length
        = deck.length % ps.length := by
    rw [dealRounds_snd, List.length_drop]
    omega
  have hk : deck.length % ps.length
      ≤ (dealRounds (deck.length / ps.length) ps deck).1.length := by
    rw [dealRounds_length]
    exact Nat.le_of_lt (Nat.mod_lt _ hn)
  rw [dealCards]
  refine (dealExtra_join _ _ _ hk).trans ?_
  have htake :
      (dealRounds (deck.length / ps.length) ps deck).2.take
          (deck.length % ps.length)
        = (dealRounds (deck.length / ps.length) ps deck).2 := by
    rw [← hsndlen, List.take_length]
  rw [htake]
  refine (List.Perm.append_right _ (dealRounds_join _ _ _)).trans ?_
  rw [dealRounds_snd, List.append_assoc, List.take_append_drop]

/-! State-machine helpers. -/

/-- With no stored solution, create_game always takes the first early
return. -/
theorem create_game_of_none (sol : Suggestion) (shuffle : List Card → List Card)
    {state : GameState} (hsol : state.solution = none) :
    create_game sol shuffle state = Except.error Status.BadRequest := by
  rw [create_game, hsol]

/-- Every request preserves an absent solution. -/
theorem applyOp_solution_none (op : Op) {state : GameState}
    (hsol : state.solution = none) : (applyOp op state).solution = none := by
  cases op with
  | createPlayer name =>
      rw [applyOp]
      cases hf : state.players.find? (fun p => p.name == name) with
      | some p => simp [create_player, hf, hsol]
      | none => simp [create_player, hf, hsol]
  | deletePlayer name =>
      rw [applyOp]
      cases hf : state.players.findIdx? (fun p => p.name == name) with
      | some i => simp [delete_player, hf, hsol]
      | none => simp [delete_player, hf, hsol]
  | getPlayers => exact hsol
  | getPlayer name => exact hsol
  | createGame sol shuffle =>
      rw [applyOp, create_game_of_none sol shuffle hsol]
      exact hsol
  | deleteGame =>
      rw [applyOp, delete_game, hsol]
      exact hsol
  | suggestOp sug => exact hsol

/-- Unfolding one step of runOps. -/
theorem runOps_cons (op : Op) (ops : List Op) (state : GameState) :
    runOps (op :: ops) state = runOps ops (applyOp op state) := by
  rw [runOps, runOps, List.foldl_cons]

/-- An absent solution is invariant under every request sequence. -/
theorem runOps_solution_none (ops : List Op) {state : GameState}
    (hsol : state.solution = none) : (runOps ops state).solution = none := by
  induction ops generalizing state with
  | nil => exact hsol
  | cons op ops ih =>
      rw [runOps_cons]
      exact ih (applyOp_solution_none op hsol)

/-! Refutation helpers. -/

/-- find? characterized as a split: the found element, everything before it
failing the predicate. -/
theorem find?_eq_some_split {α : Type} (p : α → Bool) (l : List α) (a : α)
    (h : l.find? p = some a) :
    ∃ l1 l2, l = l1 ++ a :: l2 ∧ p a = true ∧ ∀ x ∈ l1, p x = false := by
  induction l with
  | nil => simp [List.find?] at h
  | cons b l ih =>
      cases hpb : p b with
      | true =>
          rw [List.find?_cons_of_pos _ hpb] at h
          obtain rfl : b = a := Option.some.inj h
          exact ⟨[], l, rfl, hpb, by simp⟩
      | false =>
          rw [List.find?_cons_of_neg _ (by simp [hpb])] at h
          obtain ⟨l1, l2, hl, hpa, hall⟩ := ih h
          refine ⟨b :: l1, l2, by rw [hl, List.cons_append], hpa, ?_⟩
          intro x hx
          rcases List.mem_cons.mp hx with hx1 | hx2
          · rw [hx1]
            exact hpb
          · exact hall x hx2

/-- Membership in the turn order is exactly being a roster player at an index
other than the suggester's. -/
theorem mem_turnOrder {players : List Player} {s : Nat}
    (hs : s < players.length) {x : Player} :
    x ∈ turnOrder players s
      ↔ ∃ i, ∃ hi : i < players.length, i ≠ s ∧ players.get ⟨i, hi⟩ = x := by
  constructor
  · intro hx
    rcases List.mem_append.mp hx with hd | ht
    · rcases List.mem_iff_getElem.mp hd with ⟨j, hj, hget⟩
      rw [List.length_drop] at hj
      refine ⟨s + 1 + j, by omega, by omega, ?_⟩
      rw [List.get_eq_getElem]
      rw [List.getElem_drop] at hget
      exact hget
    · rcases List.mem_iff_getElem.mp ht with ⟨j, hj, hget⟩
      rw [List.length_take] at hj
      refine ⟨j, by omega, by omega, ?_⟩
      rw [List.get_eq_getElem]
      rw [List.getElem_take] at hget
      exact hget
  · rintro ⟨i, hi, hne, rfl⟩
    rcases Nat.lt_or_ge i s with hlt | hge
    · refine List.mem_append.mpr (Or.inr ?_)
      refine List.mem_iff_getElem.mpr ⟨i, ?_, ?_⟩
      · rw [List.length_take]
        omega
      · rw [List.getElem_take, List.get_eq_getElem]
    · have hgt : s < i := by omega
      refine List.mem_append.mpr (Or.inl ?_)
      refine List.mem_iff_getElem.mpr ⟨i - (s + 1), ?_, ?_⟩
      · rw [List.length_drop]
        omega
      · rw [List.getElem_drop, List.get_eq_getElem]
        congr 1
        show s + 1 + (i - (s + 1)) = i
        omega

/-- A hand matches a suggestion exactly when it holds one of the three
suggested cards. -/
theorem handMatches_iff (sug : Suggestion) (p : Player) :
    handMatches sug p = true ↔ ∃ c ∈ p.cards, c ∈ sug.cards := by
  rw [handMatches, List.any_eq_true]
  constructor
  · rintro ⟨c, hc, hp⟩
    refine ⟨c, hc, ?_⟩
    simp only [Bool.or_eq_true, beq_iff_eq] at hp
    simp [Suggestion.cards]
    tauto
  · rintro ⟨c, hc, hmem⟩
    refine ⟨c, hc, ?_⟩
    simp only [Suggestion.cards, List.mem_cons, List.mem_singleton] at hmem
    simp only [Bool.or_eq_true, beq_iff_eq]
    tauto

/-! Concrete fixtures used by witnesses and counterexamples. -/

/-- A concrete solution triple. -/
def solW : Suggestion :=
  { suspect := .Plum, weapon := .Candlestick, room := .Kitchen }

/-- A two-player pre-deal roster with no stored solution — the coherent
situation in which the spec expects StartGame to succeed. -/
def formingW : GameState :=
  { players := [Player.new "Alice", Player.new "Bob"], solution := none }

/-- The same two-player roster with a solution already stored. -/
def activeW : GameState :=
  { players := [Player.new "Alice", Player.new "Bob"], solution := some solW }

/-- A three-player roster with empty hands and a stored solution (the only
shape from which the source's create_game runs its dealing code). -/
def startW : GameState :=
  { players := [Player.new "Alice", Player.new "Bob", Player.new "Carol"],
    solution := some solW }

/-- The state create_game produces from startW with the identity shuffle. -/
def dealtW : GameState :=
  { players := dealCards startW.players (residualCards solW),
    solution := some solW }

/-! Claim theorems. -/

/-- C1: the claim says create_game fails with InvalidState exactly when a
game is already active (solution Some) and succeeds with at least 2 players
and no active game.  The source's check is inverted: with two registered
players and NO stored solution it returns the error status, and with a
stored solution it proceeds and returns a freshly dealt state.  This theorem
evaluates both sides of the divergence. -/
theorem C1_create_game_inverted_precondition :
    create_game solW id formingW = Except.error Status.BadRequest
    ∧ create_game solW id activeW
        = Except.ok
            { players := dealCards activeW.players (residualCards solW),
              solution := some solW } := by
  constructor
  · rfl
  · rfl

/-- C2: from the initial empty state, every sequence of the exposed
operations leaves the solution at none, and create_game always returns the
error status: no game ever becomes active. -/
theorem C2_no_game_ever_becomes_active (ops : List Op) (sol : Suggestion)
    (shuffle : List Card → List Card) :
    (runOps ops GameState.new).solution = none
    ∧ create_game sol shuffle (runOps ops GameState.new)
        = Except.error Status.BadRequest := by
  have h : (runOps ops GameState.new).solution = none :=
    runOps_solution_none ops rfl
  exact ⟨h, create_game_of_none sol shuffle h⟩

/-- C8: delete_game fails with the error status when no solution is stored,
leaving the state unchanged, and otherwise clears roster and solution back
to the initial empty state. -/
theorem C8_delete_game_reset (state : GameState) :
    (state.solution = none →
        delete_game state = (Status.BadRequest, state))
    ∧ (∀ s, state.solution = some s →
        delete_game state = (Status.NoContent, GameState.new)) := by
  constructor
  · intro h
    rw [delete_game, h]
  · intro s h
    rw [delete_game, h]
    rfl

/-- C8 witness: both branches at concrete states. -/
theorem C8_delete_game_reset_witness :
    delete_game formingW = (Status.BadRequest, formingW)
    ∧ delete_game activeW = (Status.NoContent, GameState.new) :=
  ⟨(C8_delete_game_reset formingW).1 rfl,
   (C8_delete_game_reset activeW).2 solW rfl⟩

/-- C9: create_player fails with Conflict when a player with the same
case-sensitive name exists, leaving the state unchanged, and otherwise
appends a fresh player with an empty hand. -/
theorem C9_create_player_duplicate (name : String) (state : GameState) :
    ((∃ p ∈ state.players, p.name = name) →
        create_player name state = (Status.Conflict, state))
    ∧ ((∀ p ∈ state.players, p.name ≠ name) →
        create_player name state
          = (Status.Created,
              { state with players := state.players ++ [Player.new name] })) := by
  constructor
  · rintro ⟨p, hp, hname⟩
    cases hf : state.players.find? (fun q => q.name == name) with
    | some q => rw [create_player, hf]
    | none =>
        exfalso
        have := List.find?_eq_none.mp hf p hp
        rw [beq_iff_eq] at this
        exact this hname
  · intro h
    have hf : state.players.find? (fun q => q.name == name) = none := by
      refine List.find?_eq_none.mpr ?_
      intro p hp
      rw [beq_iff_eq]
      exact h p hp
    rw [create_player, hf]

/-- C9 witness: adding Alice twice conflicts and leaves the state unchanged;
adding Bob to the singleton roster appends him with an empty hand. -/
theorem C9_create_player_duplicate_witness :
    create_player "Alice"
        { players := [Player.new "Alice"], solution := none }
      = (Status.Conflict, { players := [Player.new "Alice"], solution := none })
    ∧ create_player "Bob" { players := [Player.new "Alice"], solution := none }
        = (Status.Created,
            { players := [Player.new "Alice", Player.new "Bob"],
              solution := none }) :=
  ⟨(C9_create_player_duplicate "Alice"
      { players := [Player.new "Alice"], solution := none }).1
      ⟨Player.new "Alice", by decide, rfl⟩,
   (C9_create_player_duplicate "Bob"
      { players := [Player.new "Alice"], solution := none }).2
      (by decide)⟩

/-- C10: the claim says StartGame with fewer than 2 players fails with an
InsufficientPlayers kind distinct from the game-state kind.  In the source
both failures return the very same Status::BadRequest, and with one player
and no active game the handler fails at the inverted solution check without
ever reaching the player-count check; with a stored solution the
player-count check fires and yields the identical status.  No distinct kind
exists (no solution is chosen and no cards are dealt on either path). -/
theorem C10_insufficient_players_not_distinct :
    create_game solW id { players := [Player.new "Alice"], solution := none }
      = Except.error Status.BadRequest
    ∧ create_game solW id
          { players := [Player.new "Alice"], solution := some solW }
        = Except.error Status.BadRequest := by
  constructor
  · rfl
  · rfl

/-- C6: an accusation is correct exactly when all three fields equal the
stored solution, and any single-field mismatch makes it incorrect.  The
accuse operation is modelled from the spec (section 4.3): the source's
suggestion handler ends in todo!() and contains no comparison against the
solution. -/
theorem C6_accuse_structural_equality (sol sug : Suggestion) :
    (accuse sol sug = true ↔
        sug.suspect = sol.suspect ∧ sug.weapon = sol.weapon ∧
          sug.room = sol.room)
    ∧ (sug.suspect ≠ sol.suspect → accuse sol sug = false)
    ∧ (sug.weapon ≠ sol.weapon → accuse sol sug = false)
    ∧ (sug.room ≠ sol.room → accuse sol sug = false) := by
  refine ⟨?_, ?_, ?_, ?_⟩
  · rw [accuse]
    simp [Bool.and_eq_true, beq_iff_eq, and_assoc]
  · intro h
    rw [accuse]
    simp [beq_eq_false_iff_ne.mpr h]
  · intro h
    rw [accuse]
    simp [beq_eq_false_iff_ne.mpr h]
  · intro h
    rw [accuse]
    simp [beq_eq_false_iff_ne.mpr h]

/-- C6 witness: the exact solution accuses correctly; changing only the
weapon makes it incorrect. -/
theorem C6_accuse_structural_equality_witness :
    accuse solW solW = true
    ∧ accuse solW
        { suspect := .Plum, weapon := .Rope, room := .Kitchen } = false :=
  ⟨(C6_accuse_structural_equality solW solW).1.mpr ⟨rfl, rfl, rfl⟩,
   (C6_accuse_structural_equality solW
      { suspect := .Plum, weapon := .Rope, room := .Kitchen }).2.2.1
      (by decide)⟩

/-- C7: whenever a handler reports one of the expected error statuses, the
state it hands back is exactly the state it received: no partial mutation on
any failure path.  (Every embedded handler is a total Lean function, so none
of these paths panics; the read-only routes and the suggest stub never
mutate at all.) -/
theorem C7_no_partial_mutation_on_error (state : GameState) (name : String)
    (sol : Suggestion) (shuffle : List Card → List Card) (sug : Suggestion) :
    ((create_player name state).1 = Status.Conflict →
        (create_player name state).2 = state)
    ∧ ((delete_player name state).1 = Status.NotFound →
        (delete_player name state).2 = state)
    ∧ (∀ e, create_game sol shuffle state = Except.error e →
        applyOp (Op.createGame sol shuffle) state = state)
    ∧ ((delete_game state).1 = Status.BadRequest →
        (delete_game state).2 = state)
    ∧ applyOp (Op.getPlayers) state = state
    ∧ applyOp (Op.getPlayer name) state = state
    ∧ (suggest sug state).2 = state := by
  refine ⟨?_, ?_, ?_, ?_, rfl, rfl, rfl⟩
  · intro h
    cases hf : state.players.find? (fun q => q.name == name) with
    | some q => rw [create_player, hf]
    | none =>
        exfalso
        rw [create_player, hf] at h
        exact absurd h (by simp)
  · intro h
    cases hf : state.players.findIdx? (fun q => q.name == name) with
    | some i =>
        exfalso
        rw [delete_player, hf] at h
        exact absurd h (by simp)
    | none => rw [delete_player, hf]
  · intro e he
    rw [applyOp, he]
  · intro h
    cases hsol : state.solution with
    | none => rw [delete_game, hsol]
    | some s =>
        exfalso
        rw [delete_game, hsol] at h
        exact absurd h (by simp)

/-- C7 witness: a duplicate create_player and a failing create_game at
concrete states leave those states untouched. -/
theorem C7_no_partial_mutation_on_error_witness :
    (create_player "Alice"
        { players := [Player.new "Alice"], solution := none }).2
      = { players := [Player.new "Alice"], solution := none }
    ∧ applyOp (Op.createGame solW id) formingW = formingW :=
  ⟨(C7_no_partial_mutation_on_error
      { players := [Player.new "Alice"], solution := none }
      "Alice" solW id solW).1 (by decide),
   (C7_no_partial_mutation_on_error formingW "Alice" solW id solW).2.2.1
      Status.BadRequest rfl⟩

/-- C5: refutation (modelled from the spec, section 4.3 — the source's
suggest handler discards its hand search and ends in todo!()).  The refuter
is never the suggester; a returned refuter is the first candidate in turn
order whose hand matches; and the result is unrefuted exactly when no
non-suggesting player's hand intersects the suggestion's three cards. -/
theorem C5_refute_first_in_turn_order (sug : Suggestion)
    (players : List Player) (s : Nat) (hs : s < players.length)
    (hnames : (players.map Player.name).Nodup) :
    (∀ p, refute sug s players = some p → p ≠ players.get ⟨s, hs⟩)
    ∧ (∀ p, refute sug s players = some p →
        ∃ pre post, turnOrder players s = pre ++ p :: post
          ∧ handMatches sug p = true
          ∧ ∀ q ∈ pre, handMatches sug q = false)
    ∧ (refute sug s players = none ↔
        ∀ i, ∀ hi : i < players.length, i ≠ s →
          ∀ c ∈ (players.get ⟨i, hi⟩).cards, c ∉ sug.cards) := by
  refine ⟨?_, ?_, ?_⟩
  · intro p hp heq
    rw [refute] at hp
    have hmem := List.mem_of_find?_eq_some hp
    obtain ⟨i, hi, hne, hget⟩ := (mem_turnOrder hs).mp hmem
    have hgets : players.get ⟨i, hi⟩ = players.get ⟨s, hs⟩ := by
      rw [hget, heq]
    have hmapi : i < (players.map Player.name).length := by
      rw [List.length_map]
      exact hi
    have hmaps : s < (players.map Player.name).length := by
      rw [List.length_map]
      exact hs
    have hname : (players.map Player.name)[i] = (players.map Player.name)[s] := by
      rw [List.getElem_map, List.getElem_map]
      rw [List.get_eq_getElem, List.get_eq_getElem] at hgets
      rw [hgets]
    exact hne ((hnames.getElem_inj_iff).mp hname)
  · intro p hp
    rw [refute] at hp
    obtain ⟨pre, post, hsplit, hpa, hall⟩ :=
      find?_eq_some_split (handMatches sug) (turnOrder players s) p hp
    exact ⟨pre, post, hsplit, hpa, hall⟩
  · rw [refute, List.find?_eq_none]
    constructor
    · intro h i hi hne c hc hcs
      have hmem : players.get ⟨i, hi⟩ ∈ turnOrder players s :=
        (mem_turnOrder hs).mpr ⟨i, hi, hne, rfl⟩
      exact h _ hmem ((handMatches_iff sug _).mpr ⟨c, hc, hcs⟩)
    · intro h x hx hmatch
      obtain ⟨i, hi, hne, rfl⟩ := (mem_turnOrder hs).mp hx
      obtain ⟨c, hc, hcs⟩ := (handMatches_iff sug _).mp hmatch
      exact h i hi hne c hc hcs

/-- C5 witness: with Alice suggesting Plum/Candlestick/Kitchen, the first
refuter in turn order is Carol (who holds the Plum card), and Carol is not
the suggester. -/
theorem C5_refute_first_in_turn_order_witness :
    refute solW 0
        [{ name := "Alice", cards := [Card.Weapon .Rope] },
         { name := "Bob", cards := [] },
         { name := "Carol", cards := [Card.Suspect .Plum] }]
      = some { name := "Carol", cards := [Card.Suspect .Plum] }
    ∧ ({ name := "Carol", cards := [Card.Suspect .Plum] } : Player)
        ≠ ([{ name := "Alice", cards := [Card.Weapon .Rope] },
            { name := "Bob", cards := [] },
            { name := "Carol", cards := [Card.Suspect .Plum] }] :
              List Player).get ⟨0, by decide⟩ :=
  ⟨by decide,
   (C5_refute_first_in_turn_order solW
      [{ name := "Alice", cards := [Card.Weapon .Rope] },
       { name := "Bob", cards := [] },
       { name := "Carol", cards := [Card.Suspect .Plum] }]
      0 (by decide) (by decide)).1
      { name := "Carol", cards := [Card.Suspect .Plum] } (by decide)⟩

/-- Indexing the concatenation of two replicated blocks. -/
theorem getElem_replicate_append {α : Type} {a b : Nat} {v w : α} {i : Nat}
    (h : i < (List.replicate a v ++ List.replicate b w).length) :
    (List.replicate a v ++ List.replicate b w)[i] = if i < a then v else w := by
  have hlen : (List.replicate a v).length = a := List.length_replicate a v
  rcases Nat.lt_or_ge i a with h1 | h1
  · rw [List.getElem_append_left (by omega), List.getElem_replicate, if_pos h1]
  · have hb : i - a < b := by
      simp only [List.length_append, List.length_replicate] at h
      omega
    rw [List.getElem_append_right (by omega), List.getElem_replicate,
      if_neg (by omega)]

/-- Decomposition of a successful create_game call: it requires a stored
solution and at least two players, and produces exactly the dealt state. -/
theorem create_game_ok_elim {state state1 : GameState} {sol : Suggestion}
    {shuffle : List Card → List Card}
    (hok : create_game sol shuffle state = Except.ok state1) :
    2 ≤ state.players.length
    ∧ state1
        = { players := dealCards state.players (shuffle (residualCards sol)),
            solution := some sol } := by
  cases hsol : state.solution with
  | none =>
      rw [create_game, hsol] at hok
      exact absurd hok (by simp)
  | some s0 =>
      rw [create_game, hsol] at hok
      by_cases hlt : state.players.length < 2
      · rw [if_pos hlt] at hok
        exact absurd hok (by simp)
      · rw [if_neg hlt] at hok
        exact ⟨by omega, (Except.ok.inj hok).symm⟩

/-- C3: a successful deal with n players hands the first (18 mod n) roster
players (18 / n) + 1 cards each and every other player exactly (18 / n),
walking the shuffled 18-card deck once in round-robin roster order; hence
all hand sizes differ by at most 1. -/
theorem C3_round_robin_hand_sizes (state state1 : GameState)
    (sol : Suggestion) (shuffle : List Card → List Card)
    (hperm : (shuffle (residualCards sol)).Perm (residualCards sol))
    (hempty : ∀ p ∈ state.players, p.cards = [])
    (hok : create_game sol shuffle state = Except.ok state1) :
    2 ≤ state.players.length
    ∧ state1.players.length = state.players.length
    ∧ (∀ i, ∀ hi : i < state1.players.length,
        (state1.players.get ⟨i, hi⟩).cards.length
          = if i < 18 % state.players.length
            then 18 / state.players.length + 1
            else 18 / state.players.length)
    ∧ (∀ i j, ∀ hi : i < state1.players.length,
        ∀ hj : j < state1.players.length,
        (state1.players.get ⟨i, hi⟩).cards.length
          ≤ (state1.players.get ⟨j, hj⟩).cards.length + 1) := by
  obtain ⟨h2, rfl⟩ := create_game_ok_elim hok
  dsimp only
  have hdeck : (shuffle (residualCards sol)).length = 18 := by
    rw [hperm.length_eq, residual_length]
  have hn : 0 < state.players.length := by omega
  have hmod : 18 % state.players.length < state.players.length :=
    Nat.mod_lt _ hn
  have hmap := dealCards_lengths state.players (shuffle (residualCards sol)) hn
  rw [hdeck] at hmap
  have htake :
      (state.players.take (18 % state.players.length)).map
          (fun p => p.cards.length + 18 / state.players.length + 1)
        = List.replicate (18 % state.players.length)
            (18 / state.players.length + 1) := by
    have hc : ∀ p ∈ state.players.take (18 % state.players.length),
        p.cards.length + 18 / state.players.length + 1
          = 18 / state.players.length + 1 := by
      intro p hp
      rw [hempty p (List.mem_of_mem_take hp)]
      simp
    rw [List.map_congr_left hc, List.map_const', List.length_take,
      Nat.min_eq_left (Nat.le_of_lt hmod)]
  have hdrop :
      (state.players.drop (18 % state.players.length)).map
          (fun p => p.cards.length + 18 / state.players.length)
        = List.replicate (state.players.length - 18 % state.players.length)
            (18 / state.players.length) := by
    have hc : ∀ p ∈ state.players.drop (18 % state.players.length),
        p.cards.length + 18 / state.players.length
          = 18 / state.players.length := by
      intro p hp
      rw [hempty p (List.mem_of_mem_drop hp)]
      simp
    rw [List.map_congr_left hc, List.map_const', List.length_drop]
  have hfull :
      (dealCards state.players (shuffle (residualCards sol))).map
          (fun p => p.cards.length)
        = List.replicate (18 % state.players.length)
            (18 / state.players.length + 1)
          ++ List.replicate (state.players.length - 18 % state.players.length)
            (18 / state.players.length) := by
    rw [hmap, htake, hdrop]
  have hidx : ∀ i, ∀ hi :
      i < (dealCards state.players (shuffle (residualCards sol))).length,
      ((dealCards state.players (shuffle (residualCards sol))).get
          ⟨i, hi⟩).cards.length
        = if i < 18 % state.players.length
          then 18 / state.players.length + 1
          else 18 / state.players.length := by
    intro i hi
    rw [List.get_eq_getElem]
    have hi2 : i < ((dealCards state.players
        (shuffle (residualCards sol))).map (fun p => p.cards.length)).length := by
      rw [List.length_map]
      exact hi
    have hx : (dealCards state.players (shuffle (residualCards sol)))[i].cards.length
        = ((dealCards state.players (shuffle (residualCards sol))).map
            (fun p => p.cards.length))[i] := by
      rw [List.getElem_map]
    rw [hx, List.getElem_of_eq hfull, getElem_replicate_append]
  refine ⟨h2, dealCards_length _ _, hidx, ?_⟩
  intro i j hi hj
  rw [hidx i hi, hidx j hj]
  split_ifs <;> omega

/-- C3 witness: from the concrete three-player pre-deal state, the dealt
hands are 6, 6, 6. -/
theorem C3_round_robin_hand_sizes_witness :
    (dealtW.players.get ⟨0, by decide⟩).cards.length = 6
    ∧ (dealtW.players.get ⟨1, by decide⟩).cards.length = 6
    ∧ (dealtW.players.get ⟨2, by decide⟩).cards.length = 6 :=
  ⟨(C3_round_robin_hand_sizes startW dealtW solW id (List.Perm.refl _)
      (by decide) rfl).2.2.1 0 (by decide),
   (C3_round_robin_hand_sizes startW dealtW solW id (List.Perm.refl _)
      (by decide) rfl).2.2.1 1 (by decide),
   (C3_round_robin_hand_sizes startW dealtW solW id (List.Perm.refl _)
      (by decide) rfl).2.2.1 2 (by decide)⟩

/-- C4: a successful deal hands out exactly 18 cards, the cards across all
hands plus the three solution cards are a permutation of the 21-card
catalog (each card exactly once), and no hand contains any solution
card. -/
theorem C4_deal_partitions_catalog (state state1 : GameState)
    (sol : Suggestion) (shuffle : List Card → List Card)
    (hperm : (shuffle (residualCards sol)).Perm (residualCards sol))
    (hempty : ∀ p ∈ state.players, p.cards = [])
    (hok : create_game sol shuffle state = Except.ok state1) :
    ((state1.players.map Player.cards).flatten).length = 18
    ∧ (((state1.players.map Player.cards).flatten) ++ sol.cards).Perm allCards
    ∧ ∀ p ∈ state1.players, ∀ c ∈ p.cards, c ∉ sol.cards := by
  obtain ⟨h2, rfl⟩ := create_game_ok_elim hok
  dsimp only
  have hdeck : (shuffle (residualCards sol)).length = 18 := by
    rw [hperm.length_eq, residual_length]
  have hn : 0 < state.players.length := by omega
  have hnil : (state.players.map Player.cards).flatten = [] := by
    have hc : ∀ p ∈ state.players, Player.cards p = (fun _ => ([] : List Card)) p :=
      hempty
    rw [List.map_congr_left hc, List.map_const']
    simp
  have hjoin : (((dealCards state.players
        (shuffle (residualCards sol))).map Player.cards).flatten).Perm
      (shuffle (residualCards sol)) := by
    have h := dealCards_join state.players (shuffle (residualCards sol)) hn
    rw [hnil, List.nil_append] at h
    exact h
  have hjoinres : (((dealCards state.players
        (shuffle (residualCards sol))).map Player.cards).flatten).Perm
      (residualCards sol) := hjoin.trans hperm
  refine ⟨?_, ?_, ?_⟩
  · rw [hjoinres.length_eq, residual_length]
  · exact (List.Perm.append_right sol.cards hjoinres).trans
      (residual_append_perm sol)
  · intro p hp c hc
    have hmemflat : c ∈ ((dealCards state.players
        (shuffle (residualCards sol))).map Player.cards).flatten := by
      refine List.mem_flatten.mpr ⟨p.cards, ?_, hc⟩
      exact List.mem_map.mpr ⟨p, hp, rfl⟩
    exact not_mem_of_mem_residual sol (hjoinres.mem_iff.mp hmemflat)

/-- C4 witness: the concrete three-player deal hands out 18 cards and,
together with the solution cards, covers the catalog exactly. -/
theorem C4_deal_partitions_catalog_witness :
    ((dealtW.players.map Player.cards).flatten).length = 18
    ∧ (((dealtW.players.map Player.cards).flatten) ++ solW.cards).Perm
        allCards :=
  ⟨(C4_deal_partitions_catalog startW dealtW solW id (List.Perm.refl _)
      (by decide) rfl).1,
   (C4_deal_partitions_catalog startW dealtW solW id (List.Perm.refl _)
      (by decide) rfl).2.1⟩
